import Mathlib

/-!
Shallow embedding of the p2p chat repository's core components, with proofs
of the specification's claims about them.

Components embedded (from the Go sources):
* `pkg/dedup` : the FIFO duplicate-suppression cache (`Deduper`, `New`, `Seen`).
* `pkg/message` : the JSON message codec (`Message`, `Marshal`, `Unmarshal`),
  together with a character-level model of Go's `encoding/json` printer and
  parser as used by the codec.
* `pkg/peer` : the handshake read loop, the connection table
  (`AddConn` / `RemoveConn` / `Connections`), and `Broadcast`.
* `pkg/peer/heartbeat.go` : `HeartbeatManager.UpdateLastSeen` and
  `ProcessHeartbeat`.
* the `ReconnectManager` (`TriggerReconnect`, `shouldReconnect`).

Modelling conventions: machine integers are `Int` (no field here can
overflow in any claim's scope); `time.Time` instants are `Int` nanosecond
counts (the codec's precision); byte streams are `List Nat` with each
element a byte value; Go maps are association lists whose key lists are
`Nodup`; `net.Conn` handles are `Nat` tokens, and closing a handle is
recorded in an explicit `closed` list.  Write effects of `Broadcast` are
returned as explicit data.
-/

namespace P2p

/-! ## pkg/dedup — the duplicate-suppression cache

Go source (`dedup.go`): `Deduper` holds `capacity int`, `set map[string]...`
and `order []string`.  The code keeps `set` equal to the set of elements of
`order` at all times (an element is added to both together and removed from
both together), so the model carries `order` alone and reads membership off
it; `capacity` stays an `Int` as in the source. -/

structure Deduper where
  capacity : Int
  order : List String
deriving Repr, DecidableEq

/-- `New` creates a Deduper with the given capacity; a non-positive
capacity is replaced by 1 (`if capacity <= 0 \x7b capacity = 1 \x7d`). -/
def New (capacity : Int) : Deduper :=
  { capacity := if capacity ≤ 0 then 1 else capacity, order := [] }

/-- `Deduper.Seen` reports whether `id` has been seen before; if not it
records the id (appending to `order`) and, once the capacity is exceeded,
evicts the oldest id (`order = order[1:]`, delete from the set). -/
def Deduper.Seen (d : Deduper) (id : String) : Bool × Deduper :=
  if id ∈ d.order then
    (true, d)
  else
    let order1 := d.order ++ [id]
    if (order1.length : Int) > d.capacity then
      (false, { d with order := order1.tail })
    else
      (false, { d with order := order1 })

/-- Well-formedness of a `Deduper` state: positive capacity, no duplicate
entries, and no more entries than the capacity.  `New` establishes it and
`Seen` preserves it (lemmas below), so it holds of every reachable cache. -/
def Deduper.WF (d : Deduper) : Prop :=
  1 ≤ d.capacity ∧ d.order.Nodup ∧ (d.order.length : Int) ≤ d.capacity

instance (d : Deduper) : Decidable d.WF := by
  unfold Deduper.WF; infer_instance

/-! ## pkg/peer — the handshake

Go source (`peer.go`, `handshake`): after writing the local id and a
newline (modelled as always succeeding, as the claims concern the read
side), the function reads one byte at a time from the connection,
accumulating bytes into `buf` until a newline (byte 10); appending a byte
that makes `len(buf) > 64` aborts with the "id too long" error, and any
read error aborts.  The inbound connection is modelled as the list of
bytes it will yield, a read past its end being the read error / EOF. -/

inductive HsError where
  | readErr
  | idTooLong
deriving Repr, DecidableEq

/-- Byte-at-a-time read loop of `handshake`: `buf` is the accumulator. -/
def handshakeLoop (buf : List Nat) (stream : List Nat) : Except HsError (List Nat) :=
  match stream with
  | [] => .error .readErr
  | b :: rest =>
    if b = 10 then .ok buf
    else
      let buf1 := buf ++ [b]
      if buf1.length > 64 then .error .idTooLong
      else handshakeLoop buf1 rest

/-- `unicode.IsSpace` on a code point: the White_Space property — the six
ASCII whitespace characters plus NEL, NBSP, OGHAM SPACE MARK, the
EN-QUAD..HAIR-SPACE block, LINE and PARAGRAPH SEPARATOR, NARROW NBSP,
MEDIUM MATHEMATICAL SPACE and IDEOGRAPHIC SPACE. -/
def isSpaceRune (r : Nat) : Bool :=
  r == 9 || r == 10 || r == 11 || r == 12 || r == 13 || r == 32
    || r == 133 || r == 160 || r == 5760 || (8192 ≤ r && r ≤ 8202)
    || r == 8232 || r == 8233 || r == 8239 || r == 8287 || r == 12288

/-- `utf8.RuneStart`: every byte except a continuation byte. -/
def runeStart (b : Nat) : Bool := !(128 ≤ b && b < 192)

/-- `utf8.DecodeRune` on the front of a byte list: the code point and the
number of bytes consumed.  Invalid input (a stray continuation byte, an
overlong or out-of-range or truncated sequence) decodes to U+FFFD with
size 1; the empty list gives size 0. -/
def decodeRune : List Nat → Nat × Nat
  | [] => (65533, 0)
  | b0 :: rest =>
    if b0 < 128 then (b0, 1)
    else if b0 < 194 then (65533, 1)
    else if b0 < 224 then
      match rest with
      | b1 :: _ =>
        if 128 ≤ b1 && b1 < 192 then ((b0 - 192) * 64 + (b1 - 128), 2)
        else (65533, 1)
      | [] => (65533, 1)
    else if b0 < 240 then
      match rest with
      | b1 :: b2 :: _ =>
        if (if b0 = 224 then 160 ≤ b1 && b1 < 192
            else if b0 = 237 then 128 ≤ b1 && b1 < 160
            else 128 ≤ b1 && b1 < 192)
            && (128 ≤ b2 && b2 < 192) then
          ((b0 - 224) * 4096 + (b1 - 128) * 64 + (b2 - 128), 3)
        else (65533, 1)
      | _ => (65533, 1)
    else if b0 < 245 then
      match rest with
      | b1 :: b2 :: b3 :: _ =>
        if (if b0 = 240 then 144 ≤ b1 && b1 < 192
            else if b0 = 244 then 128 ≤ b1 && b1 < 144
            else 128 ≤ b1 && b1 < 192)
            && (128 ≤ b2 && b2 < 192) && (128 ≤ b3 && b3 < 192) then
          ((b0 - 240) * 262144 + (b1 - 128) * 4096 + (b2 - 128) * 64 + (b3 - 128), 4)
        else (65533, 1)
      | _ => (65533, 1)
    else (65533, 1)

/-- `utf8.DecodeLastRune`: an ASCII final byte decodes alone; otherwise
the bytes from the nearest start byte (at most 3 back) to the end must
decode to a rune spanning exactly that range, else the result is U+FFFD
with size 1, as when no start byte lies within reach. -/
def decodeLastRune (bs : List Nat) : Nat × Nat :=
  match bs.reverse with
  | [] => (65533, 0)
  | b0 :: rs =>
    if b0 < 128 then (b0, 1)
    else
      match rs with
      | b1 :: rs1 =>
        if runeStart b1 then
          let p := decodeRune [b1, b0]
          if p.2 = 2 then p else (65533, 1)
        else
          match rs1 with
          | b2 :: rs2 =>
            if runeStart b2 then
              let p := decodeRune [b2, b1, b0]
              if p.2 = 3 then p else (65533, 1)
            else
              match rs2 with
              | b3 :: _ =>
                if runeStart b3 then
                  let p := decodeRune [b3, b2, b1, b0]
                  if p.2 = 4 then p else (65533, 1)
                else (65533, 1)
              | [] => (65533, 1)
          | [] => (65533, 1)
      | [] => (65533, 1)

/-- `strings.TrimLeftFunc(s, unicode.IsSpace)` on bytes: drop leading
whitespace runes.  Fuel-based (the byte count always suffices, as a
decode on a nonempty list consumes at least one byte) so that concrete
inputs evaluate by kernel reduction. -/
def trimLeftGo : Nat → List Nat → List Nat
  | 0, bs => bs
  | fuel + 1, bs =>
    match bs with
    | [] => []
    | _ :: _ =>
      let p := decodeRune bs
      if isSpaceRune p.1 then trimLeftGo fuel (bs.drop p.2) else bs

/-- `strings.TrimRightFunc(s, unicode.IsSpace)` on bytes: drop trailing
whitespace runes. -/
def trimRightGo : Nat → List Nat → List Nat
  | 0, bs => bs
  | fuel + 1, bs =>
    match bs with
    | [] => []
    | _ :: _ =>
      let p := decodeLastRune bs
      if isSpaceRune p.1 then trimRightGo fuel (bs.take (bs.length - p.2)) else bs

/-- `strings.TrimSpace` on the byte string: leading and trailing Unicode
whitespace runes removed (the source's ASCII fast path has the same
semantics as `TrimFunc` with `unicode.IsSpace`). -/
def trimSpace (bs : List Nat) : List Nat :=
  trimRightGo bs.length (trimLeftGo bs.length bs)

/-- `handshake` returns `strings.TrimSpace(string(buf))` on success. -/
def handshake (stream : List Nat) : Except HsError (List Nat) :=
  (handshakeLoop [] stream).map trimSpace

/-! ## pkg/peer — the connection table

Go source (`peer.go`): `conns map[string]net.Conn` guarded by a mutex.
The map is an association list whose key list stays `Nodup`; a
`net.Conn` is a `Nat` handle and `closed` records every handle on which
`Close()` has been called.  `AddConn` is a plain map assignment
(`p.conns[id] = conn`); `RemoveConn` closes and deletes when present. -/

structure ConnTable where
  conns : List (String × Nat)
  closed : List Nat
deriving Repr, DecidableEq

/-- Map assignment on an association list: replace the entry in place when
the key is present, else append it. -/
def upsert : List (String × Nat) → String → Nat → List (String × Nat)
  | [], id, conn => [(id, conn)]
  | (k, v) :: t, id, conn =>
    if k = id then (id, conn) :: t else (k, v) :: upsert t id conn

/-- `AddConn` adds a connection under the remote id: `p.conns[id] = conn`.
No other effect — in particular no stream is closed here. -/
def AddConn (w : ConnTable) (id : String) (conn : Nat) : ConnTable :=
  { w with conns := upsert w.conns id conn }

/-- `RemoveConn` closes the stream and deletes the entry when the id is
present; it is a no-op on unknown ids. -/
def RemoveConn (w : ConnTable) (id : String) : ConnTable :=
  match List.lookup id w.conns with
  | some c =>
    { conns := w.conns.filter (fun kv => !(kv.1 == id)), closed := w.closed ++ [c] }
  | none => w

/-- `Connections` returns the number of active connections. -/
def Connections (w : ConnTable) : Nat := w.conns.length

/-! ## pkg/message — the message value

Go source (`message.go`): `Message` carries `SenderID string`,
`SequenceNo int`, `Type MessageType` (a string type), `Payload string`
and `Timestamp time.Time`.  `Type` is a reserved word in Lean, so the
field is spelled `type`; the timestamp is the instant as an `Int`
nanosecond count, the precision of the codec's RFC3339Nano rendering. -/

structure Message where
  SenderID : String
  SequenceNo : Int
  type : String
  Payload : String
  Timestamp : Int
deriving Repr, DecidableEq

/-! ## pkg/peer/heartbeat.go — liveness bookkeeping

`HeartbeatManager` holds `peers map[string]*PeerInfo` plus counters; the
`config`, `stopCh` and callback fields play no part in the two claimed
operations and are omitted.  A `*PeerInfo` mutation through the map is an
in-place update of the entry under that key.  `time.Now()` enters as the
explicit `now` argument. -/

structure PeerInfo where
  ID : String
  Addr : String
  LastSeen : Int
  LastHeartbeat : Int
deriving Repr, DecidableEq

structure HeartbeatManager where
  peers : List (String × PeerInfo)
  heartbeatsSent : Int
  heartbeatsReceived : Int
deriving Repr, DecidableEq

/-- `UpdateLastSeen` refreshes `LastSeen` for `id` if the peer exists. -/
def UpdateLastSeen (hm : HeartbeatManager) (id : String) (now : Int) :
    HeartbeatManager :=
  match List.lookup id hm.peers with
  | some _ =>
    { hm with peers := hm.peers.map (fun kv =>
        if kv.1 = id then (kv.1, { kv.2 with LastSeen := now }) else kv) }
  | none => hm

/-- `ProcessHeartbeat` refreshes both instants for `msg.SenderID` and
increments `heartbeatsReceived`, all only if the peer exists. -/
def ProcessHeartbeat (hm : HeartbeatManager) (msg : Message) (now : Int) :
    HeartbeatManager :=
  match List.lookup msg.SenderID hm.peers with
  | some _ =>
    { peers := hm.peers.map (fun kv =>
        if kv.1 = msg.SenderID then
          (kv.1, { kv.2 with LastHeartbeat := now, LastSeen := now })
        else kv)
      heartbeatsSent := hm.heartbeatsSent
      heartbeatsReceived := hm.heartbeatsReceived + 1 }
  | none => hm

/-! ## ReconnectManager — reconnection state

Go source (`reconnect.go`, shipped alongside the peer tests):
`reconnects map[string]*reconnectState` with per-address `attempts`,
`lastAttempt time.Time`, `backoff`, `maxBackoff`, `active`.  Durations and
instants are `Int` nanoseconds; the zero `time.Time` is instant `0`, and
`now.Sub(zero)` is then simply `now` (any realistic `now` far exceeds the
1s initial backoff).  `isConnected` consults the heartbeat manager's
address list, passed here as `connectedAddrs`.  `shouldReconnect` also
returns the possibly-updated manager, since it adds unknown peers. -/

structure reconnectState where
  addr : String
  attempts : Int
  lastAttempt : Int
  backoff : Int
  maxBackoff : Int
  active : Bool
deriving Repr, DecidableEq

structure ReconnectManager where
  reconnects : List (String × reconnectState)
deriving Repr, DecidableEq

/-- `AddPeer` registers an address for reconnection if not yet tracked:
zero attempts, zero `lastAttempt`, 1s backoff, 5min cap, inactive. -/
def ReconnectManager.AddPeer (rm : ReconnectManager) (addr : String) :
    ReconnectManager :=
  match List.lookup addr rm.reconnects with
  | some _ => rm
  | none =>
    { reconnects := rm.reconnects ++
        [(addr, { addr := addr, attempts := 0, lastAttempt := 0,
                  backoff := 1000000000, maxBackoff := 300000000000,
                  active := false })] }

/-- `TriggerReconnect` marks a tracked peer: `active = true` and
`lastAttempt = time.Time` zero value. -/
def ReconnectManager.TriggerReconnect (rm : ReconnectManager) (addr : String) :
    ReconnectManager :=
  match List.lookup addr rm.reconnects with
  | some _ =>
    { reconnects := rm.reconnects.map (fun kv =>
        if kv.1 = addr then
          (kv.1, { kv.2 with active := true, lastAttempt := 0 })
        else kv) }
  | none => rm

/-- `shouldReconnect`: no attempt when connected; an unknown address is
added and attempted; no attempt while `active`; no attempt before
`backoff` has elapsed since `lastAttempt`; otherwise attempt. -/
def ReconnectManager.shouldReconnect (rm : ReconnectManager)
    (connectedAddrs : List String) (addr : String) (now : Int) :
    Bool × ReconnectManager :=
  if addr ∈ connectedAddrs then (false, rm)
  else
    match List.lookup addr rm.reconnects with
    | none => (true, rm.AddPeer addr)
    | some st =>
      if st.active then (false, rm)
      else if now - st.lastAttempt < st.backoff then (false, rm)
      else (true, rm)

/-! ## pkg/message — the JSON codec

Go source (`message.go`): `Marshal` is `json.Marshal(m)` and `Unmarshal`
is `json.Unmarshal(data, &msg)`.  The standard library codec is modelled
at the character level: a printer with Go's escaping rules (including the
default HTML escaping of `<`, `>`, `&` and the ` `/` `
escapes), and a recursive-descent parser over the JSON grammar.  Two
deliberate simplifications of stdlib behavior, neither observable by any
claim: JSON numbers are integers (Go parses fractions but then rejects
them for the one numeric field, `int SequenceNo` — both sides report an
error on such input), and object keys match struct tags exactly (Go also
falls back to a case-insensitive match).  `time.Time`'s RFC3339Nano
rendering of an instant is modelled as the decimal string of its
nanosecond count — both are injective textual encodings of the instant at
the codec's nanosecond precision. -/

def digitChar (n : Nat) : Char := Char.ofNat (48 + n)

def isDigitChar (c : Char) : Bool := 48 ≤ c.toNat && c.toNat ≤ 57

def digitVal (c : Char) : Nat := c.toNat - 48

/-- Decimal digits of `n`, most significant first, prepended to `acc`;
fuel-based so that concrete inputs evaluate by kernel reduction (the fuel
`n` used by `natChars` always suffices, since `n / 10 < n`). -/
def natCharsGo : Nat → Nat → List Char → List Char
  | 0, n, acc => digitChar (n % 10) :: acc
  | fuel + 1, n, acc =>
    if n < 10 then digitChar n :: acc
    else natCharsGo fuel (n / 10) (digitChar (n % 10) :: acc)

def natChars (n : Nat) : List Char := natCharsGo n n []

/-- Characters of an integer, as Go's `%d` / JSON number rendering. -/
def intChars (i : Int) : List Char :=
  (if i < 0 then ['-'] else []) ++ natChars i.natAbs

def charsToNat (ds : List Char) : Nat :=
  ds.foldl (fun a c => a * 10 + digitVal c) 0

/-- Lowercase hex digit, as in the standard JSON encoder's table. -/
def hexDigitChar (n : Nat) : Char :=
  if n < 10 then Char.ofNat (48 + n) else Char.ofNat (87 + n)

/-- One character, escaped exactly as Go's `encoding/json` string encoder
does with its default HTML escaping: `"` and `\` get a backslash; newline,
carriage return and tab get `\n` `\r` `\t`; other control characters and
`<` `>` `&` become `\u00xx`; U+2028 and U+2029 become ` `/` `;
everything else is literal. -/
def escapeChar (c : Char) : List Char :=
  if c = '"' then ['\\', '"']
  else if c = '\\' then ['\\', '\\']
  else if c = '\n' then ['\\', 'n']
  else if c = '\r' then ['\\', 'r']
  else if c = '\t' then ['\\', 't']
  else if c.toNat < 32 || c = '<' || c = '>' || c = '&' then
    ['\\', 'u', '0', '0', hexDigitChar (c.toNat / 16), hexDigitChar (c.toNat % 16)]
  else if c.toNat = 8232 || c.toNat = 8233 then
    ['\\', 'u', '2', '0', '2', hexDigitChar (c.toNat % 16)]
  else [c]

def escapeList : List Char → List Char
  | [] => []
  | c :: cs => escapeChar c ++ escapeList cs

/-- A parsed JSON value; numbers as integers (see the section comment). -/
inductive Json where
  | null
  | bool (b : Bool)
  | num (n : Int)
  | str (s : String)
  | arr (elems : List Json)
  | obj (members : List (String × Json))

mutual

/-- Render a JSON value the way `json.Marshal` prints it: no whitespace,
members and elements comma-separated in order. -/
def render : Json → List Char
  | .null => "null".data
  | .bool true => "true".data
  | .bool false => "false".data
  | .num n => intChars n
  | .str s => '"' :: (escapeList s.data ++ ['"'])
  | .arr es => '[' :: (renderItems es ++ [']'])
  | .obj ms => '{' :: (renderFields ms ++ ['}'])

def renderItems : List Json → List Char
  | [] => []
  | [e] => render e
  | e :: es => render e ++ (',' :: renderItems es)

def renderFields : List (String × Json) → List Char
  | [] => []
  | [(k, v)] => '"' :: (escapeList k.data ++ ('"' :: ':' :: render v))
  | (k, v) :: ms =>
    ('"' :: (escapeList k.data ++ ('"' :: ':' :: render v))) ++ (',' :: renderFields ms)

end

/-- JSON inter-token whitespace (space, tab, newline, carriage return). -/
def isWsChar (c : Char) : Bool := c = ' ' || c = '\t' || c = '\n' || c = '\r'

def skipWs : List Char → List Char
  | [] => []
  | c :: cs => if isWsChar c then skipWs cs else c :: cs

/-- Split a leading run of decimal digits off the input. -/
def spanDigits : List Char → List Char × List Char
  | [] => ([], [])
  | c :: cs =>
    if isDigitChar c then
      let p := spanDigits cs
      (c :: p.1, p.2)
    else ([], c :: cs)

def hexVal (c : Char) : Option Nat :=
  if 48 ≤ c.toNat && c.toNat ≤ 57 then some (c.toNat - 48)
  else if 97 ≤ c.toNat && c.toNat ≤ 102 then some (c.toNat - 87)
  else if 65 ≤ c.toNat && c.toNat ≤ 70 then some (c.toNat - 55)
  else none

def parseHex4 (a b c d : Char) : Option Nat := do
  let va ← hexVal a
  let vb ← hexVal b
  let vc ← hexVal c
  let vd ← hexVal d
  return ((va * 16 + vb) * 16 + vc) * 16 + vd

def unescapeChar (c : Char) : Option Char :=
  if c = '"' then some '"'
  else if c = '\\' then some '\\'
  else if c = '/' then some '/'
  else if c = 'b' then some (Char.ofNat 8)
  else if c = 'f' then some (Char.ofNat 12)
  else if c = 'n' then some '\n'
  else if c = 'r' then some '\r'
  else if c = 't' then some '\t'
  else none

/-- Body of a string literal, after the opening quote; `acc` holds the
decoded characters in reverse.  An invalid `\u` code point decodes to the
replacement character, as in Go; a raw control character is rejected. -/
def parseStringBody (acc : List Char) : List Char → Except String (String × List Char)
  | [] => .error "unterminated string literal"
  | '\\' :: 'u' :: a :: b :: c2 :: d :: rest =>
    match parseHex4 a b c2 d with
    | some n =>
      if n.isValidChar then parseStringBody (Char.ofNat n :: acc) rest
      else parseStringBody (Char.ofNat 65533 :: acc) rest
    | none => .error "invalid unicode escape"
  | '\\' :: e :: rest =>
    match unescapeChar e with
    | some ch => parseStringBody (ch :: acc) rest
    | none => .error "invalid escape"
  | ['\\'] => .error "unterminated escape"
  | c :: rest =>
    if c = '"' then .ok (String.mk acc.reverse, rest)
    else if c.toNat < 32 then .error "control character in string literal"
    else parseStringBody (c :: acc) rest

/-- A JSON number as an integer (see the section comment). -/
def parseNumber : List Char → Except String (Int × List Char)
  | [] => .error "invalid number"
  | c :: r =>
    if c = '-' then
      let p := spanDigits r
      if p.1.isEmpty then .error "invalid number"
      else .ok (-(charsToNat p.1 : Int), p.2)
    else
      let p := spanDigits (c :: r)
      if p.1.isEmpty then .error "invalid number"
      else .ok ((charsToNat p.1 : Int), p.2)

mutual

/-- One JSON value.  Structural on `fuel`, so that the parser both
terminates and evaluates by kernel reduction; `parse` supplies fuel that
always suffices, since every recursion step first consumes input. -/
def parseVal : Nat → List Char → Except String (Json × List Char)
  | 0, _ => .error "value nesting exceeds available fuel"
  | fuel + 1, cs =>
    match skipWs cs with
    | [] => .error "unexpected end of JSON input"
    | c :: r =>
      if c = 'n' then
        match r with
        | 'u' :: 'l' :: 'l' :: r2 => .ok (.null, r2)
        | _ => .error "invalid literal"
      else if c = 't' then
        match r with
        | 'r' :: 'u' :: 'e' :: r2 => .ok (.bool true, r2)
        | _ => .error "invalid literal"
      else if c = 'f' then
        match r with
        | 'a' :: 'l' :: 's' :: 'e' :: r2 => .ok (.bool false, r2)
        | _ => .error "invalid literal"
      else if c = '"' then
        match parseStringBody [] r with
        | .ok (s, r2) => .ok (.str s, r2)
        | .error e => .error e
      else if c = '[' then
        match skipWs r with
        | ']' :: r2 => .ok (.arr [], r2)
        | r1 =>
          match parseItems fuel r1 with
          | .ok (es, r2) => .ok (.arr es, r2)
          | .error e => .error e
      else if c = '{' then
        match skipWs r with
        | '}' :: r2 => .ok (.obj [], r2)
        | r1 =>
          match parseFields fuel r1 with
          | .ok (ms, r2) => .ok (.obj ms, r2)
          | .error e => .error e
      else if c = '-' || isDigitChar c then
        match parseNumber (c :: r) with
        | .ok (n, r2) => .ok (.num n, r2)
        | .error e => .error e
      else .error "unexpected character in JSON input"

/-- One-or-more comma-separated array items (the empty array is produced
by `parseVal` directly). -/
def parseItems : Nat → List Char → Except String (List Json × List Char)
  | 0, _ => .error "value nesting exceeds available fuel"
  | fuel + 1, cs =>
    match parseVal fuel cs with
    | .error e => .error e
    | .ok (val, r1) =>
      match skipWs r1 with
      | ',' :: r2 => (parseItems fuel r2).map (fun pr => (val :: pr.1, pr.2))
      | ']' :: r2 => .ok ([val], r2)
      | _ => .error "expected comma or closing bracket"

/-- One-or-more comma-separated object members (the empty object is
produced by `parseVal` directly). -/
def parseFields : Nat → List Char → Except String (List (String × Json) × List Char)
  | 0, _ => .error "value nesting exceeds available fuel"
  | fuel + 1, cs =>
    match skipWs cs with
    | '"' :: r0 =>
      match parseStringBody [] r0 with
      | .error e => .error e
      | .ok (k, r1) =>
        match skipWs r1 with
        | ':' :: r2 =>
          match parseVal fuel r2 with
          | .error e => .error e
          | .ok (val, r3) =>
            match skipWs r3 with
            | ',' :: r4 => (parseFields fuel r4).map (fun pr => ((k, val) :: pr.1, pr.2))
            | '}' :: r4 => .ok ([(k, val)], r4)
            | _ => .error "expected comma or closing brace"
        | _ => .error "expected colon after object key"
    | _ => .error "expected object key"

end

/-- A complete JSON document: one value, then at most whitespace. -/
def parse (cs : List Char) : Except String Json :=
  match parseVal (cs.length + 1) cs with
  | .error e => .error e
  | .ok (j, r) =>
    if skipWs r = [] then .ok j else .error "unexpected data after top-level value"

/-- The zero `Message`, the starting point of `json.Unmarshal` into a
fresh struct: every absent field keeps its zero value. -/
def zeroMessage : Message :=
  { SenderID := "", SequenceNo := 0, type := "", Payload := "", Timestamp := 0 }

/-- Model of `time.Time`'s textual instant: the decimal nanosecond count
(see the section comment). -/
def parseTimestamp (s : String) : Option Int :=
  match s.data with
  | [] => none
  | c :: ds0 =>
    if c = '-' then
      if ds0.isEmpty then none
      else if ds0.all isDigitChar then some (-(charsToNat ds0 : Int)) else none
    else
      if (c :: ds0).all isDigitChar then some ((charsToNat (c :: ds0) : Int)) else none

/-- Assign one object member to its struct field, per the `json:"..."`
tags: strings into the three string fields, an integer into
`sequence_no`, a textual instant into `timestamp`; JSON null leaves a
field unchanged; any other shape is a type error; unknown keys are
ignored. -/
def setField (m : Message) (kv : String × Json) : Except String Message :=
  if kv.1 = "sender_id" then
    match kv.2 with
    | .str s => .ok { m with SenderID := s }
    | .null => .ok m
    | _ => .error "cannot unmarshal value into field sender_id"
  else if kv.1 = "sequence_no" then
    match kv.2 with
    | .num n => .ok { m with SequenceNo := n }
    | .null => .ok m
    | _ => .error "cannot unmarshal value into field sequence_no"
  else if kv.1 = "type" then
    match kv.2 with
    | .str s => .ok { m with type := s }
    | .null => .ok m
    | _ => .error "cannot unmarshal value into field type"
  else if kv.1 = "payload" then
    match kv.2 with
    | .str s => .ok { m with Payload := s }
    | .null => .ok m
    | _ => .error "cannot unmarshal value into field payload"
  else if kv.1 = "timestamp" then
    match kv.2 with
    | .str s =>
      match parseTimestamp s with
      | some t => .ok { m with Timestamp := t }
      | none => .error "cannot parse timestamp"
    | .null => .ok m
    | _ => .error "cannot unmarshal value into field timestamp"
  else .ok m

/-- Decode a parsed JSON value into a `Message`: an object assigns its
members in order (later duplicates win) starting from the zero struct;
null leaves the zero struct; any other value is a type error. -/
def decodeMessage : Json → Except String Message
  | .obj ms => ms.foldlM setField zeroMessage
  | .null => .ok zeroMessage
  | _ => .error "cannot unmarshal value into Go value of type message.Message"

/-- `Message.Marshal`: the five fields, in struct order, under their tags. -/
def encodeMessage (m : Message) : Json :=
  .obj [("sender_id", .str m.SenderID), ("sequence_no", .num m.SequenceNo),
        ("type", .str m.type), ("payload", .str m.Payload),
        ("timestamp", .str (String.mk (intChars m.Timestamp)))]

def Marshal (m : Message) : List Char := render (encodeMessage m)

def Unmarshal (data : List Char) : Except String Message :=
  match parse data with
  | .ok j => decodeMessage j
  | .error e => .error e

/-- A remainder that cannot extend a digit run: empty or headed by a
non-digit.  Every delimiter the renderer emits after a number qualifies. -/
def numStop : List Char → Bool
  | [] => true
  | c :: _ => !isDigitChar c

/-! ## pkg/peer — Broadcast

Go source (`peer.go`, `Broadcast`): marshal the message once (for a
`Message`, `json.Marshal` cannot fail), mark its `senderID/sequenceNo`
fingerprint seen, snapshot the connection table under the mutex, then
write the bytes to every snapshotted connection; a failed write records
the first error and removes the failing connection from the live table
(`RemoveConn`, which closes it), then continues with the rest.  The
environment says which connection handles accept a write; deliveries are
returned as explicit `(handle, bytes)` data. -/

structure BCastEnv where
  writeOk : Nat → Bool

structure PeerSt where
  conns : ConnTable
  seen : Deduper

/-- The `fmt.Sprintf("%s/%d", msg.SenderID, msg.SequenceNo)` fingerprint. -/
def fingerprint (m : Message) : String :=
  m.SenderID ++ "/" ++ toString m.SequenceNo

/-- The fan-out loop over the snapshot. -/
def broadcastLoop (env : BCastEnv) (data : List Char) :
    List (String × Nat) → ConnTable → List (Nat × List Char) → Option String →
      ConnTable × List (Nat × List Char) × Option String
  | [], table, delivered, firstErr => (table, delivered, firstErr)
  | (id, c) :: rest, table, delivered, firstErr =>
    if env.writeOk c then
      broadcastLoop env data rest table (delivered ++ [(c, data)]) firstErr
    else
      let fe := match firstErr with
        | none => some ("write to " ++ id)
        | some e => some e
      broadcastLoop env data rest (RemoveConn table id) delivered fe

/-- `Peer.Broadcast`: returns the final table, the deliveries, the first
write error (`none` when every write succeeded), and the updated dedup
state. -/
def Broadcast (env : BCastEnv) (st : PeerSt) (m : Message) :
    ConnTable × List (Nat × List Char) × Option String × Deduper :=
  let data := Marshal m
  let seen1 := (st.seen.Seen (fingerprint m)).2
  let snapshot := st.conns.conns
  let r := broadcastLoop env data snapshot st.conns [] none
  (r.1, r.2.1, r.2.2, seen1)

theorem New_WF (c : Int) : (New c).WF := by
  refine ⟨?_, by simp [New], ?_⟩
  · by_cases h : c ≤ 0
    · simp [New, h]
    · simp [New, h]; omega
  · by_cases h : c ≤ 0
    · simp [New, h]
    · simp [New, h]; omega

theorem Seen_capacity (d : Deduper) (id : String) :
    ((d.Seen id).2).capacity = d.capacity := by
  unfold Deduper.Seen
  split <;> [rfl; (dsimp only []; split <;> rfl)]

theorem Seen_WF (d : Deduper) (id : String) (h : d.WF) : ((d.Seen id).2).WF := by
  obtain ⟨hcap, hnd, hlen⟩ := h
  unfold Deduper.Seen
  split
  · exact ⟨hcap, hnd, hlen⟩
  · rename_i hmem
    dsimp only []
    split
    · rename_i hover
      refine ⟨hcap, ?_, ?_⟩
      · exact ((hnd.append (List.nodup_singleton id)
          (by simpa using hmem)).tail)
      · rcases hod : d.order with _ | ⟨a, t⟩ <;> rw [hod] at hlen hover
        · simp at hover ⊢; omega
        · simp only [List.cons_append, List.tail_cons]
          simp only [List.length_append, List.length_singleton, List.length_cons,
            List.length_nil] at hlen hover ⊢
          push_cast at hlen hover ⊢
          omega
    · rename_i hover
      refine ⟨hcap, hnd.append (List.nodup_singleton id) (by simpa using hmem), ?_⟩
      simp only [not_lt] at hover
      exact hover

theorem foldl_Seen_WF (ids : List String) (d : Deduper) (h : d.WF) :
    (ids.foldl (fun d i => (d.Seen i).2) d).WF := by
  induction ids generalizing d with
  | nil => exact h
  | cons i t ih => exact ih _ (Seen_WF d i h)

theorem foldl_Seen_capacity (ids : List String) (d : Deduper) :
    (ids.foldl (fun d i => (d.Seen i).2) d).capacity = d.capacity := by
  induction ids generalizing d with
  | nil => rfl
  | cons i t ih => rw [List.foldl_cons, ih, Seen_capacity]

/-- C1: on a well-formed dedup cache, `check_and_record` (`Deduper.Seen`)
returns false on a call that records a fresh fingerprint `F` (and `F` is in
the cache afterwards); returns true and leaves the cache entirely unchanged
on a duplicate call (so a duplicate never refreshes `F`'s position); and a
call recording `G` evicts a present `F` exactly when `G` is a new distinct
fingerprint, the cache is full, and `F` is the oldest entry. -/
theorem c1_dedup_check_and_record (d : Deduper) (F G : String) (hwf : d.WF) :
    (F ∉ d.order → (d.Seen F).1 = false ∧ F ∈ ((d.Seen F).2).order)
    ∧ (F ∈ d.order → (d.Seen F).1 = true ∧ (d.Seen F).2 = d)
    ∧ (F ∈ d.order →
        (F ∉ ((d.Seen G).2).order ↔
          G ∉ d.order ∧ (d.order.length : Int) = d.capacity
            ∧ d.order.head? = some F)) := by
  obtain ⟨hcap, hnd, hlen⟩ := hwf
  refine ⟨?_, ?_, ?_⟩
  · intro hF
    unfold Deduper.Seen
    rw [if_neg hF]
    dsimp only []
    split
    · rename_i hover
      refine ⟨rfl, ?_⟩
      rcases hod : d.order with _ | ⟨a, t⟩
      · rw [hod] at hover; simp at hover; omega
      · simp
    · exact ⟨rfl, by simp⟩
  · intro hF
    unfold Deduper.Seen
    rw [if_pos hF]
    exact ⟨rfl, rfl⟩
  · intro hF
    unfold Deduper.Seen
    by_cases hG : G ∈ d.order
    · rw [if_pos hG]
      constructor
      · intro h; exact absurd hF h
      · rintro ⟨hGn, -⟩; exact absurd hG hGn
    · rw [if_neg hG]
      dsimp only []
      split
      · rename_i hover
        have hcapeq : (d.order.length : Int) = d.capacity := by
          simp only [List.length_append, List.length_singleton] at hover
          push_cast at hover
          omega
        rcases hod : d.order with _ | ⟨a, t⟩
        · rw [hod] at hcapeq; simp at hcapeq; omega
        · rw [hod] at hcapeq hG hF hnd
          have hFG : F ≠ G := fun h => hG (h ▸ hF)
          have hat : a ∉ t := (List.nodup_cons.mp hnd).1
          simp only [List.cons_append, List.tail_cons, List.mem_append,
            List.mem_singleton, List.head?_cons, Option.some.injEq]
          constructor
          · intro hnot
            push_neg at hnot
            obtain ⟨hnt, -⟩ := hnot
            have haF : a = F := by
              rcases List.mem_cons.mp hF with h | h
              · exact h.symm
              · exact absurd h hnt
            exact ⟨hG, hcapeq, haF⟩
          · rintro ⟨-, -, haF⟩
            push_neg
            exact ⟨haF ▸ hat, hFG⟩
      · rename_i hover
        simp only [List.length_append, List.length_singleton, not_lt] at hover
        constructor
        · intro hnot
          exact absurd (List.mem_append_left _ hF) hnot
        · rintro ⟨-, hcapeq, -⟩
          exfalso
          rw [← hcapeq] at hover
          push_cast at hover
          omega

theorem c1_dedup_check_and_record_witness :
    (Deduper.mk 2 ["F", "X"]).WF ∧
    ((("F" : String) ∉ (Deduper.mk 2 ["F", "X"]).order →
        ((Deduper.mk 2 ["F", "X"]).Seen "F").1 = false ∧
          "F" ∈ (((Deduper.mk 2 ["F", "X"]).Seen "F").2).order)
      ∧ (("F" : String) ∈ (Deduper.mk 2 ["F", "X"]).order →
          ((Deduper.mk 2 ["F", "X"]).Seen "F").1 = true ∧
            ((Deduper.mk 2 ["F", "X"]).Seen "F").2 = Deduper.mk 2 ["F", "X"])
      ∧ (("F" : String) ∈ (Deduper.mk 2 ["F", "X"]).order →
          (("F" : String) ∉ (((Deduper.mk 2 ["F", "X"]).Seen "G").2).order ↔
            ("G" : String) ∉ (Deduper.mk 2 ["F", "X"]).order
              ∧ ((Deduper.mk 2 ["F", "X"]).order.length : Int)
                  = (Deduper.mk 2 ["F", "X"]).capacity
              ∧ (Deduper.mk 2 ["F", "X"]).order.head? = some "F"))) :=
  ⟨by decide, c1_dedup_check_and_record (Deduper.mk 2 ["F", "X"]) "F" "G" (by decide)⟩

/-- C9: `New c` has effective capacity `c` when `c ≥ 1` and capacity `1`
when `c ≤ 0`, and after any sequence of `Seen` calls the number of stored
fingerprints never exceeds that capacity. -/
theorem c9_capacity_bound (c : Int) (ids : List String) :
    ((1 ≤ c → (New c).capacity = c) ∧ (c ≤ 0 → (New c).capacity = 1))
    ∧ ((ids.foldl (fun d i => (d.Seen i).2) (New c)).order.length : Int)
        ≤ (New c).capacity := by
  refine ⟨⟨?_, ?_⟩, ?_⟩
  · intro h; simp [New]; omega
  · intro h; simp [New, h]
  · have hwf := foldl_Seen_WF ids (New c) (New_WF c)
    have hcapc := foldl_Seen_capacity ids (New c)
    exact hcapc ▸ hwf.2.2

theorem c9_capacity_bound_witness :
    (((1 : Int) ≤ (-3 : Int) → (New (-3)).capacity = (-3 : Int))
      ∧ ((-3 : Int) ≤ 0 → (New (-3)).capacity = 1))
    ∧ ((["a", "b", "a"].foldl (fun d i => (d.Seen i).2) (New (-3))).order.length : Int)
        ≤ (New (-3)).capacity :=
  c9_capacity_bound (-3) ["a", "b", "a"]

theorem handshakeLoop_newline (id : List Nat) (rest : List Nat) :
    ∀ buf : List Nat, (10 : Nat) ∉ id → buf.length + id.length ≤ 64 →
    handshakeLoop buf (id ++ 10 :: rest) = .ok (buf ++ id) := by
  induction id with
  | nil =>
    intro buf _ _
    simp [handshakeLoop]
  | cons b t ih =>
    intro buf hmem hlen
    have hb : b ≠ 10 := fun h => hmem (h ▸ List.mem_cons_self b t)
    simp only [List.cons_append, handshakeLoop, if_neg hb, List.append_eq]
    rw [if_neg (by simp at hlen ⊢; omega)]
    rw [ih (buf ++ [b]) (fun h => hmem (List.mem_cons_of_mem b h))
      (by simp at hlen ⊢; omega)]
    simp

theorem handshakeLoop_too_long (stream : List Nat) :
    ∀ buf : List Nat, buf.length ≤ 64 →
    (∀ b ∈ stream.take (65 - buf.length), b ≠ 10) →
    65 ≤ buf.length + stream.length →
    handshakeLoop buf stream = .error .idTooLong := by
  induction stream with
  | nil =>
    intro buf _ _ hlen
    simp at hlen
    omega
  | cons b t ih =>
    intro buf hbuf hmem hlen
    have htk : 0 < 65 - buf.length := by omega
    have hb : b ≠ 10 := by
      refine hmem b ?_
      rcases Nat.exists_eq_succ_of_ne_zero (Nat.pos_iff_ne_zero.mp htk) with ⟨k, hk⟩
      rw [hk, List.take_succ_cons]
      exact List.mem_cons_self b _
    simp only [handshakeLoop, if_neg hb]
    by_cases hfull : buf.length + 1 > 64
    · rw [if_pos (by simp; omega)]
    · rw [if_neg (by simp; omega)]
      refine ih (buf ++ [b]) (by simp; omega) ?_ (by simp at hlen ⊢; omega)
      intro x hx
      refine hmem x ?_
      rcases Nat.exists_eq_succ_of_ne_zero (Nat.pos_iff_ne_zero.mp htk) with ⟨k, hk⟩
      rw [hk, List.take_succ_cons]
      refine List.mem_cons_of_mem b ?_
      have : 65 - (buf ++ [b]).length = k := by simp at hk ⊢; omega
      rwa [this] at hx

theorem handshakeLoop_eof (stream : List Nat) :
    ∀ buf : List Nat, (10 : Nat) ∉ stream → buf.length + stream.length ≤ 64 →
    handshakeLoop buf stream = .error .readErr := by
  induction stream with
  | nil => intro buf _ _; rfl
  | cons b t ih =>
    intro buf hmem hlen
    have hb : b ≠ 10 := fun h => hmem (h ▸ List.mem_cons_self b t)
    simp only [handshakeLoop, if_neg hb]
    rw [if_neg (by simp at hlen ⊢; omega)]
    exact ih (buf ++ [b]) (fun h => hmem (List.mem_cons_of_mem b h))
      (by simp at hlen ⊢; omega)

/-- C4: the handshake succeeds (returning the remote id) when the bytes
before the first newline number exactly 64; it aborts with the
id-too-long error when 65 bytes accumulate without a newline; and it
aborts with a read error when the stream ends (EOF / read error) before a
newline. -/
theorem c4_handshake_length_limit (id rest stream : List Nat) :
    ((10 : Nat) ∉ id → id.length = 64 →
      handshake (id ++ 10 :: rest) = .ok (trimSpace id))
    ∧ ((∀ b ∈ stream.take 65, b ≠ 10) → 65 ≤ stream.length →
      handshake stream = .error .idTooLong)
    ∧ ((10 : Nat) ∉ stream → stream.length ≤ 64 →
      handshake stream = .error .readErr) := by
  refine ⟨?_, ?_, ?_⟩
  · intro hmem hlen
    unfold handshake
    rw [handshakeLoop_newline id rest [] hmem (by simp [hlen])]
    simp [Except.map]
  · intro hmem hlen
    unfold handshake
    rw [handshakeLoop_too_long stream [] (by simp) (by simpa using hmem)
      (by simpa using hlen)]
    rfl
  · intro hmem hlen
    unfold handshake
    rw [handshakeLoop_eof stream [] hmem (by simpa using hlen)]
    rfl

theorem c4_handshake_length_limit_witness :
    (((10 : Nat) ∉ List.replicate 64 7 → (List.replicate 64 7).length = 64 →
      handshake (List.replicate 64 7 ++ 10 :: []) = .ok (trimSpace (List.replicate 64 7)))
    ∧ ((∀ b ∈ (List.replicate 65 7).take 65, b ≠ 10) → 65 ≤ (List.replicate 65 7).length →
      handshake (List.replicate 65 7) = .error .idTooLong)
    ∧ ((10 : Nat) ∉ List.replicate 65 7 → (List.replicate 65 7).length ≤ 64 →
      handshake (List.replicate 65 7) = .error .readErr))
    ∧ handshake (List.replicate 64 7 ++ 10 :: []) = .ok (List.replicate 64 7)
    ∧ handshake (List.replicate 65 7) = .error .idTooLong := by
  refine ⟨c4_handshake_length_limit (List.replicate 64 7) [] (List.replicate 65 7), ?_, ?_⟩
  · exact (c4_handshake_length_limit (List.replicate 64 7) [] []).1 (by decide) (by decide)
  · exact (c4_handshake_length_limit [] [] (List.replicate 65 7)).2.1 (by decide) (by decide)

theorem trimLeftGo_eq_self (fuel : Nat) (bs : List Nat)
    (h : isSpaceRune (decodeRune bs).1 = false) : trimLeftGo fuel bs = bs := by
  cases fuel with
  | zero => rfl
  | succ f =>
    cases bs with
    | nil => rfl
    | cons b t => simp [trimLeftGo, h]

theorem trimRightGo_eq_self (fuel : Nat) (bs : List Nat)
    (h : isSpaceRune (decodeLastRune bs).1 = false) : trimRightGo fuel bs = bs := by
  cases fuel with
  | zero => rfl
  | succ f =>
    cases bs with
    | nil => rfl
    | cons b t => simp [trimRightGo, h]

theorem trimSpace_eq_self (id : List Nat)
    (hh : isSpaceRune (decodeRune id).1 = false)
    (hl : isSpaceRune (decodeLastRune id).1 = false) :
    trimSpace id = id := by
  unfold trimSpace
  rw [trimLeftGo_eq_self _ _ hh, trimRightGo_eq_self _ _ hl]

/-- C7 (amended): for a valid incoming stream whose id bytes are 1–64
non-newline bytes, `handshake` returns those bytes with leading and
trailing Unicode whitespace removed (`strings.TrimSpace`, over decoded
UTF-8 runes); the bytes come back unmodified exactly when the id neither
starts nor ends with a whitespace rune. -/
theorem c7_handshake_id_bytes (id rest : List Nat) (hmem : (10 : Nat) ∉ id)
    (_h1 : 1 ≤ id.length) (h64 : id.length ≤ 64) :
    handshake (id ++ 10 :: rest) = .ok (trimSpace id)
    ∧ (isSpaceRune (decodeRune id).1 = false →
       isSpaceRune (decodeLastRune id).1 = false →
       handshake (id ++ 10 :: rest) = .ok id) := by
  have hok : handshake (id ++ 10 :: rest) = .ok (trimSpace id) := by
    unfold handshake
    rw [handshakeLoop_newline id rest [] hmem (by simpa using h64)]
    simp [Except.map]
  refine ⟨hok, fun hh hl => ?_⟩
  rw [hok, trimSpace_eq_self id hh hl]

theorem c7_handshake_id_bytes_witness :
    (((10 : Nat) ∉ [97, 32, 98] ∧ 1 ≤ [97, 32, 98].length ∧ [97, 32, 98].length ≤ 64)
      ∧ (handshake ([97, 32, 98] ++ 10 :: []) = .ok (trimSpace [97, 32, 98])
        ∧ (isSpaceRune (decodeRune [97, 32, 98]).1 = false →
           isSpaceRune (decodeLastRune [97, 32, 98]).1 = false →
           handshake ([97, 32, 98] ++ 10 :: []) = .ok [97, 32, 98])))
    ∧ handshake ([194, 160, 97] ++ 10 :: []) = .ok [97] :=
  ⟨⟨⟨by decide, by decide, by decide⟩,
      c7_handshake_id_bytes [97, 32, 98] [] (by decide) (by decide) (by decide)⟩,
    by
      have h := (c7_handshake_id_bytes [194, 160, 97] [] (by decide) (by decide)
        (by decide)).1
      rw [h]
      rfl⟩

theorem c7_handshake_whitespace_counterexample :
    handshake [32, 97, 10] = .ok [97] ∧ handshake [32, 97, 10] ≠ .ok [32, 97] := by
  refine ⟨rfl, fun h => ?_⟩
  rw [show handshake [32, 97, 10] = .ok [97] from rfl] at h
  simp at h

theorem lookup_upsert_self (l : List (String × Nat)) (id : String) (conn : Nat) :
    List.lookup id (upsert l id conn) = some conn := by
  induction l with
  | nil => simp [upsert, List.lookup]
  | cons kv t ih =>
    obtain ⟨k, v⟩ := kv
    by_cases h : k = id
    · simp [upsert, h, List.lookup]
    · have hne : ¬(id = k) := fun e => h e.symm
      have hbe : (id == k) = false := beq_eq_false_iff_ne.mpr hne
      simp [upsert, h, List.lookup, hbe, ih]

theorem mem_keys_upsert (l : List (String × Nat)) (id : String) (conn : Nat)
    (x : String) :
    x ∈ (upsert l id conn).map Prod.fst ↔ x ∈ l.map Prod.fst ∨ x = id := by
  induction l with
  | nil => simp [upsert]
  | cons kv t ih =>
    obtain ⟨k, v⟩ := kv
    by_cases h : k = id
    · subst h
      simp [upsert]
      tauto
    · simp [upsert, h, ih]
      tauto

theorem keys_upsert_nodup (l : List (String × Nat)) (id : String) (conn : Nat)
    (h : (l.map Prod.fst).Nodup) : ((upsert l id conn).map Prod.fst).Nodup := by
  induction l with
  | nil => simp [upsert]
  | cons kv t ih =>
    obtain ⟨k, v⟩ := kv
    simp only [List.map_cons, List.nodup_cons] at h
    by_cases hk : k = id
    · subst hk
      simpa [upsert, List.nodup_cons] using h
    · simp only [upsert, if_neg hk, List.map_cons, List.nodup_cons]
      refine ⟨?_, ih h.2⟩
      rw [mem_keys_upsert]
      rintro (hm | hm)
      · exact h.1 hm
      · exact hk hm

theorem c5_addconn_close_counterexample :
    (AddConn (ConnTable.mk [("R", 1)] []) "R" 2).conns = [("R", 2)]
    ∧ (AddConn (ConnTable.mk [("R", 1)] []) "R" 2).closed = []
    ∧ (1 : Nat) ∉ (AddConn (ConnTable.mk [("R", 1)] []) "R" 2).closed := by
  refine ⟨by decide, rfl, by decide⟩

/-- C5 (amended): re-registering an id `R` replaces the table entry — the
table afterwards maps `R` to the new stream and still has at most one
entry per remote id — but `AddConn` does not close the earlier entry's
stream (no handle is added to `closed`). -/
theorem c5_addconn_replaces (w : ConnTable) (R : String) (s2 : Nat)
    (hnd : (w.conns.map Prod.fst).Nodup) :
    List.lookup R (AddConn w R s2).conns = some s2
    ∧ ((AddConn w R s2).conns.map Prod.fst).Nodup
    ∧ (AddConn w R s2).closed = w.closed := by
  exact ⟨lookup_upsert_self w.conns R s2, keys_upsert_nodup w.conns R s2 hnd, rfl⟩

theorem c5_addconn_replaces_witness :
    ((ConnTable.mk [("R", 1)] []).conns.map Prod.fst).Nodup
    ∧ (List.lookup "R" (AddConn (ConnTable.mk [("R", 1)] []) "R" 2).conns = some 2
      ∧ ((AddConn (ConnTable.mk [("R", 1)] []) "R" 2).conns.map Prod.fst).Nodup
      ∧ (AddConn (ConnTable.mk [("R", 1)] []) "R" 2).closed
          = (ConnTable.mk [("R", 1)] []).closed) :=
  ⟨by decide, c5_addconn_replaces (ConnTable.mk [("R", 1)] []) "R" 2 (by decide)⟩

/-- C10: for a peer id absent from the liveness map, `UpdateLastSeen` and
`ProcessHeartbeat` (on a message from that id) leave the manager's state
entirely unchanged — no entry created or modified, counter untouched. -/
theorem c10_heartbeat_unknown_peer_noop (hm : HeartbeatManager) (id : String)
    (now now2 : Int) (msg : Message) (hid : msg.SenderID = id)
    (habs : List.lookup id hm.peers = none) :
    UpdateLastSeen hm id now = hm ∧ ProcessHeartbeat hm msg now2 = hm := by
  constructor
  · unfold UpdateLastSeen
    rw [habs]
  · unfold ProcessHeartbeat
    rw [hid, habs]

theorem c10_heartbeat_unknown_peer_noop_witness :
    ((Message.mk "ghost" 1 "heartbeat" "ping" 5).SenderID = "ghost"
      ∧ List.lookup "ghost"
          (HeartbeatManager.mk [("p1", PeerInfo.mk "p1" "a:1" 0 0)] 0 0).peers = none)
    ∧ (UpdateLastSeen (HeartbeatManager.mk [("p1", PeerInfo.mk "p1" "a:1" 0 0)] 0 0)
          "ghost" 9 = HeartbeatManager.mk [("p1", PeerInfo.mk "p1" "a:1" 0 0)] 0 0
      ∧ ProcessHeartbeat (HeartbeatManager.mk [("p1", PeerInfo.mk "p1" "a:1" 0 0)] 0 0)
          (Message.mk "ghost" 1 "heartbeat" "ping" 5) 9
          = HeartbeatManager.mk [("p1", PeerInfo.mk "p1" "a:1" 0 0)] 0 0) :=
  ⟨⟨rfl, by decide⟩,
    c10_heartbeat_unknown_peer_noop
      (HeartbeatManager.mk [("p1", PeerInfo.mk "p1" "a:1" 0 0)] 0 0) "ghost" 9 9
      (Message.mk "ghost" 1 "heartbeat" "ping" 5) rfl (by decide)⟩

/-- C6 (the code contradicts the claim): for a tracked, unconnected
address, `TriggerReconnect` does reset `lastAttempt` to the zero instant —
so the backoff-elapsed condition holds — but it also sets `active`, and
`shouldReconnect` therefore returns `false` on the next monitor wake;
without the trigger the same wake would have returned `true`. -/
theorem c6_trigger_reconnect_blocks_eligibility :
    ((((ReconnectManager.mk []).AddPeer "peer:1").shouldReconnect []
        "peer:1" 7000000000).1 = true
    ∧ ((List.lookup "peer:1"
          ((((ReconnectManager.mk []).AddPeer "peer:1").TriggerReconnect
            "peer:1").reconnects)).map (fun st => st.lastAttempt) = some 0)
    ∧ ((List.lookup "peer:1"
          ((((ReconnectManager.mk []).AddPeer "peer:1").TriggerReconnect
            "peer:1").reconnects)).map (fun st => st.active) = some true)
    ∧ (((((ReconnectManager.mk []).AddPeer "peer:1").TriggerReconnect
          "peer:1").shouldReconnect [] "peer:1" 7000000000).1 = false)) := by
  refine ⟨by decide, by decide, by decide, by decide⟩

theorem c8_missing_fields_counterexample :
    Unmarshal "\x7b\x7d".toList = .ok zeroMessage
    ∧ ∀ e, Unmarshal "\x7b\x7d".toList ≠ .error e := by
  refine ⟨rfl, fun e h => ?_⟩
  rw [show Unmarshal "\x7b\x7d".toList = .ok zeroMessage from rfl] at h
  exact Except.noConfusion h

/-- C8 (amended): decode (`message.Unmarshal`) returns an error on empty
input and on structurally malformed input — never a message for those —
but an input that is structurally valid JSON while missing required
fields is accepted, the absent fields keeping their zero values. -/
theorem c8_unmarshal_errors :
    (∃ e, Unmarshal "".toList = .error e)
    ∧ (∃ e, Unmarshal "\x7binvalid json".toList = .error e)
    ∧ (∀ cs e, parse cs = .error e → Unmarshal cs = .error e)
    ∧ Unmarshal "\x7b\x7d".toList = .ok zeroMessage := by
  refine ⟨⟨_, rfl⟩, ⟨_, rfl⟩, ?_, rfl⟩
  intro cs e h
  unfold Unmarshal
  rw [h]

theorem c8_unmarshal_errors_witness :
    Unmarshal "@".toList = .error "unexpected character in JSON input" :=
  c8_unmarshal_errors.2.2.1 "@".toList "unexpected character in JSON input" rfl

theorem digitChar_isDigit (k : Nat) (h : k < 10) : isDigitChar (digitChar k) = true := by
  interval_cases k <;> decide

theorem digitVal_digitChar (k : Nat) (h : k < 10) : digitVal (digitChar k) = k := by
  interval_cases k <;> decide

theorem natCharsGo_append (fuel : Nat) :
    ∀ n acc, natCharsGo fuel n acc = natCharsGo fuel n [] ++ acc := by
  induction fuel with
  | zero => intro n acc; simp [natCharsGo]
  | succ f ih =>
    intro n acc
    by_cases h : n < 10
    · simp [natCharsGo, h]
    · simp only [natCharsGo, if_neg h]
      rw [ih (n / 10) (digitChar (n % 10) :: acc), ih (n / 10) [digitChar (n % 10)]]
      simp

theorem natCharsGo_digits (fuel : Nat) :
    ∀ n, ∀ c ∈ natCharsGo fuel n [], isDigitChar c = true := by
  induction fuel with
  | zero =>
    intro n c hc
    simp only [natCharsGo, List.mem_singleton] at hc
    exact hc ▸ digitChar_isDigit _ (Nat.mod_lt _ (by omega))
  | succ f ih =>
    intro n c hc
    by_cases h : n < 10
    · simp only [natCharsGo, if_pos h, List.mem_singleton] at hc
      exact hc ▸ digitChar_isDigit _ h
    · simp only [natCharsGo, if_neg h] at hc
      rw [natCharsGo_append] at hc
      rcases List.mem_append.mp hc with hm | hm
      · exact ih _ c hm
      · simp only [List.mem_singleton] at hm
        exact hm ▸ digitChar_isDigit _ (Nat.mod_lt _ (by omega))

theorem natCharsGo_ne_nil (fuel n : Nat) : natCharsGo fuel n [] ≠ [] := by
  cases fuel with
  | zero => simp [natCharsGo]
  | succ f =>
    by_cases h : n < 10
    · simp [natCharsGo, h]
    · simp only [natCharsGo, if_neg h]
      rw [natCharsGo_append]
      simp

theorem charsToNat_append_digit (xs : List Char) (d : Char) :
    charsToNat (xs ++ [d]) = charsToNat xs * 10 + digitVal d := by
  simp [charsToNat, List.foldl_append]

theorem charsToNat_natCharsGo (fuel : Nat) :
    ∀ n, n ≤ fuel → charsToNat (natCharsGo fuel n []) = n := by
  induction fuel with
  | zero =>
    intro n hn
    have h0 : n = 0 := Nat.le_zero.mp hn
    subst h0
    simp [natCharsGo, charsToNat, digitVal, digitChar]
  | succ f ih =>
    intro n hn
    by_cases h : n < 10
    · simp only [natCharsGo, if_pos h]
      show charsToNat ([] ++ [digitChar n]) = n
      rw [charsToNat_append_digit, digitVal_digitChar n h]
      simp [charsToNat]
    · simp only [natCharsGo, if_neg h]
      rw [natCharsGo_append, charsToNat_append_digit,
        ih (n / 10) (by omega), digitVal_digitChar _ (Nat.mod_lt _ (by omega))]
      omega

theorem charsToNat_natChars (n : Nat) : charsToNat (natChars n) = n :=
  charsToNat_natCharsGo n n le_rfl

theorem natChars_digits (n : Nat) : ∀ c ∈ natChars n, isDigitChar c = true :=
  natCharsGo_digits n n

theorem natChars_cons (n : Nat) :
    ∃ d t, natChars n = d :: t ∧ isDigitChar d = true := by
  rcases h : natChars n with _ | ⟨d, t⟩
  · exact absurd h (natCharsGo_ne_nil n n)
  · exact ⟨d, t, rfl, natChars_digits n d (h ▸ List.mem_cons_self d t)⟩

theorem spanDigits_append (ds : List Char) (rest : List Char)
    (hds : ∀ c ∈ ds, isDigitChar c = true) (hrest : numStop rest = true) :
    spanDigits (ds ++ rest) = (ds, rest) := by
  induction ds with
  | nil =>
    cases rest with
    | nil => rfl
    | cons c t =>
      simp only [numStop, Bool.not_eq_true'] at hrest
      simp [spanDigits, hrest]
  | cons d t ih =>
    have hd : isDigitChar d = true := hds d (List.mem_cons_self d t)
    have ht := ih (fun c hc => hds c (List.mem_cons_of_mem d hc))
    simp [spanDigits, hd, ht]

theorem digit_ne_dash (c : Char) (h : isDigitChar c = true) : ¬(c = '-') := by
  intro hc
  rw [hc] at h
  exact absurd h (by decide)

theorem parseNumber_intChars (i : Int) (rest : List Char)
    (hrest : numStop rest = true) :
    parseNumber (intChars i ++ rest) = .ok (i, rest) := by
  by_cases hi : i < 0
  · have h1 : intChars i = '-' :: natChars i.natAbs := by simp [intChars, hi]
    have hspan := spanDigits_append (natChars i.natAbs) rest
      (natChars_digits i.natAbs) hrest
    have hne : natChars i.natAbs ≠ [] := natCharsGo_ne_nil i.natAbs i.natAbs
    have hval : -(charsToNat (natChars i.natAbs) : Int) = i := by
      rw [charsToNat_natChars]; omega
    rw [h1, List.cons_append]
    simp [parseNumber, hspan, List.isEmpty_iff, hne, hval]
  · have hic : intChars i = natChars i.natAbs := by simp [intChars, hi]
    obtain ⟨d, t, hdt, hdig⟩ := natChars_cons i.natAbs
    have hspan : spanDigits (d :: (t ++ rest)) = (d :: t, rest) := by
      rw [← List.cons_append]
      exact spanDigits_append (d :: t) rest
        (fun c hc => natChars_digits i.natAbs c (hdt ▸ hc)) hrest
    have hval : (charsToNat (d :: t) : Int) = i := by
      rw [← hdt, charsToNat_natChars]; omega
    rw [hic, hdt, List.cons_append]
    simp [parseNumber, digit_ne_dash d hdig, hspan, List.isEmpty_iff, hval]

theorem parseTimestamp_intChars (t : Int) :
    parseTimestamp (String.mk (intChars t)) = some t := by
  by_cases ht : t < 0
  · have h1 : intChars t = '-' :: natChars t.natAbs := by simp [intChars, ht]
    have hne : natChars t.natAbs ≠ [] := natCharsGo_ne_nil t.natAbs t.natAbs
    have hall : (natChars t.natAbs).all isDigitChar = true :=
      List.all_eq_true.mpr (natChars_digits t.natAbs)
    have hval : -(charsToNat (natChars t.natAbs) : Int) = t := by
      rw [charsToNat_natChars]; omega
    unfold parseTimestamp
    simp [h1, hne, hall, hval, List.isEmpty_iff]
  · have hic : intChars t = natChars t.natAbs := by simp [intChars, ht]
    obtain ⟨d, tl, hdt, hdig⟩ := natChars_cons t.natAbs
    have hall : (d :: tl).all isDigitChar = true := by
      rw [← hdt]; exact List.all_eq_true.mpr (natChars_digits t.natAbs)
    have hval : (charsToNat (d :: tl) : Int) = t := by
      rw [← hdt, charsToNat_natChars]; omega
    unfold parseTimestamp
    simp [hic, hdt, digit_ne_dash d hdig, hall, hval]

theorem hexVal_hexDigitChar (k : Nat) (h : k < 16) : hexVal (hexDigitChar k) = some k := by
  interval_cases k <;> decide

theorem parseStringBody_plain (c : Char) (acc rest : List Char) (hq : ¬(c = '"'))
    (hb : ¬(c = '\\')) (hlt : ¬(c.toNat < 32)) :
    parseStringBody acc (c :: rest) = parseStringBody (c :: acc) rest := by
  rw [parseStringBody.eq_def]
  split
  · simp_all
  · simp_all
  · simp_all
  · rename_i heq2
    simp only [List.cons.injEq] at heq2
    exact absurd heq2.1 hb
  · rename_i heq
    simp only [List.cons.injEq] at heq
    obtain ⟨rfl, rfl⟩ := heq
    rw [if_neg hq, if_neg hlt]

theorem parseStringBody_escape (c : Char) (acc rest : List Char) :
    parseStringBody acc (escapeChar c ++ rest) = parseStringBody (c :: acc) rest := by
  by_cases h1 : c = '"'
  · subst h1; rfl
  by_cases h2 : c = '\\'
  · subst h2; rfl
  by_cases h3 : c = '\n'
  · subst h3; rfl
  by_cases h4 : c = '\r'
  · subst h4; rfl
  by_cases h5 : c = '\t'
  · subst h5; rfl
  by_cases h6 : (c.toNat < 32 || c = '<' || c = '>' || c = '&') = true
  · have hesc : escapeChar c = ['\\', 'u', '0', '0',
        hexDigitChar (c.toNat / 16), hexDigitChar (c.toNat % 16)] := by
      unfold escapeChar
      rw [if_neg h1, if_neg h2, if_neg h3, if_neg h4, if_neg h5, if_pos h6]
    have h256 : c.toNat < 256 := by
      simp only [Bool.or_eq_true, decide_eq_true_eq] at h6
      rcases h6 with ((h | h) | h) | h
      · omega
      · rw [h]; decide
      · rw [h]; decide
      · rw [h]; decide
    have hhex : parseHex4 '0' '0' (hexDigitChar (c.toNat / 16)) (hexDigitChar (c.toNat % 16))
        = some c.toNat := by
      simp [parseHex4, hexVal_hexDigitChar _ (by omega : c.toNat / 16 < 16),
        hexVal_hexDigitChar _ (by omega : c.toNat % 16 < 16),
        show hexVal '0' = some 0 from by decide]
      omega
    rw [hesc]
    show (match parseHex4 '0' '0' (hexDigitChar (c.toNat / 16)) (hexDigitChar (c.toNat % 16)) with
      | some n =>
        if n.isValidChar then parseStringBody (Char.ofNat n :: acc) rest
        else parseStringBody (Char.ofNat 65533 :: acc) rest
      | none => Except.error "invalid unicode escape") = parseStringBody (c :: acc) rest
    rw [hhex]
    show (if (c.toNat).isValidChar then parseStringBody (Char.ofNat c.toNat :: acc) rest
      else parseStringBody (Char.ofNat 65533 :: acc) rest) = parseStringBody (c :: acc) rest
    rw [if_pos (show (c.toNat).isValidChar from c.valid), Char.ofNat_toNat]
  by_cases h7 : (c.toNat = 8232 || c.toNat = 8233) = true
  · have hesc : escapeChar c = ['\\', 'u', '2', '0', '2', hexDigitChar (c.toNat % 16)] := by
      unfold escapeChar
      rw [if_neg h1, if_neg h2, if_neg h3, if_neg h4, if_neg h5, if_neg h6, if_pos h7]
    have hhex : parseHex4 '2' '0' '2' (hexDigitChar (c.toNat % 16)) = some c.toNat := by
      simp only [Bool.or_eq_true, decide_eq_true_eq] at h7
      simp [parseHex4, hexVal_hexDigitChar _ (by omega : c.toNat % 16 < 16),
        show hexVal '2' = some 2 from by decide, show hexVal '0' = some 0 from by decide]
      omega
    rw [hesc]
    show (match parseHex4 '2' '0' '2' (hexDigitChar (c.toNat % 16)) with
      | some n =>
        if n.isValidChar then parseStringBody (Char.ofNat n :: acc) rest
        else parseStringBody (Char.ofNat 65533 :: acc) rest
      | none => Except.error "invalid unicode escape") = parseStringBody (c :: acc) rest
    rw [hhex]
    show (if (c.toNat).isValidChar then parseStringBody (Char.ofNat c.toNat :: acc) rest
      else parseStringBody (Char.ofNat 65533 :: acc) rest) = parseStringBody (c :: acc) rest
    rw [if_pos (show (c.toNat).isValidChar from c.valid), Char.ofNat_toNat]
  · have hesc : escapeChar c = [c] := by
      unfold escapeChar
      rw [if_neg h1, if_neg h2, if_neg h3, if_neg h4, if_neg h5, if_neg h6, if_neg h7]
    have hlt : ¬(c.toNat < 32) := by
      simp only [Bool.or_eq_true, decide_eq_true_eq, not_or] at h6
      exact h6.1.1.1
    rw [hesc, List.cons_append, List.nil_append]
    exact parseStringBody_plain c acc rest h1 h2 hlt

theorem parseStringBody_escapeList (l : List Char) :
    ∀ acc rest, parseStringBody acc (escapeList l ++ ('"' :: rest))
      = .ok (String.mk (acc.reverse ++ l), rest) := by
  induction l with
  | nil =>
    intro acc rest
    rw [escapeList, List.nil_append, List.append_nil]
    rfl
  | cons c t ih =>
    intro acc rest
    rw [escapeList, List.append_assoc, parseStringBody_escape, ih (c :: acc) rest]
    simp

theorem String_mk_data (s : String) : String.mk s.data = s := rfl

theorem ne_char_of_digit (d : Char) (h : isDigitChar d = true) (c : Char)
    (hc : c.toNat < 48 ∨ 57 < c.toNat) : ¬(d = c) := by
  intro e
  subst e
  simp [isDigitChar] at h
  omega

theorem parseVal_str (fuel : Nat) (s : String) (rest : List Char) :
    parseVal (fuel + 1) ('"' :: (escapeList s.data ++ ('"' :: rest)))
      = .ok (.str s, rest) := by
  have hps : parseStringBody [] (escapeList s.data ++ ('"' :: rest)) = .ok (s, rest) := by
    have h := parseStringBody_escapeList s.data [] rest
    simpa [String_mk_data] using h
  simp [parseVal, skipWs, isWsChar, hps]

theorem parseVal_num (fuel : Nat) (i : Int) (rest : List Char)
    (hrest : numStop rest = true) :
    parseVal (fuel + 1) (intChars i ++ rest) = .ok (.num i, rest) := by
  by_cases hi : i < 0
  · have h1 : intChars i = '-' :: natChars i.natAbs := by simp [intChars, hi]
    have hpn : parseNumber ('-' :: (natChars i.natAbs ++ rest)) = .ok (i, rest) := by
      rw [← List.cons_append, ← h1]
      exact parseNumber_intChars i rest hrest
    rw [h1, List.cons_append]
    simp [parseVal, skipWs, isWsChar, hpn]
  · have hic : intChars i = natChars i.natAbs := by simp [intChars, hi]
    obtain ⟨d, t, hdt, hdig⟩ := natChars_cons i.natAbs
    have hpn : parseNumber (d :: (t ++ rest)) = .ok (i, rest) := by
      rw [← List.cons_append, ← hdt, ← hic]
      exact parseNumber_intChars i rest hrest
    have hws : isWsChar d = false := by
      simp only [isWsChar]
      simp [ne_char_of_digit d hdig ' ' (by decide), ne_char_of_digit d hdig '\t' (by decide),
        ne_char_of_digit d hdig '\n' (by decide), ne_char_of_digit d hdig '\r' (by decide)]
    rw [hic, hdt, List.cons_append]
    simp [parseVal, skipWs, hws, hpn,
      ne_char_of_digit d hdig 'n' (by decide), ne_char_of_digit d hdig 't' (by decide),
      ne_char_of_digit d hdig 'f' (by decide), ne_char_of_digit d hdig '"' (by decide),
      ne_char_of_digit d hdig '[' (by decide), ne_char_of_digit d hdig '{' (by decide),
      hdig]

theorem parseVal_obj_str_key (fuel : Nat) (R : List Char) :
    parseVal (fuel + 1) ('{' :: ('"' :: R))
      = match parseFields fuel ('"' :: R) with
        | .ok (ms, r2) => .ok (.obj ms, r2)
        | .error e => .error e := by
  simp [parseVal, skipWs, isWsChar]

theorem parseFields_step_str_comma (fuel : Nat) (kl : List Char) (s : String)
    (tail : List Char) :
    parseFields (fuel + 1 + 1)
      ('"' :: (escapeList kl ++ ('"' :: (':' ::
        ('"' :: (escapeList s.data ++ ('"' :: (',' :: tail))))))))
      = (parseFields (fuel + 1) tail).map
          (fun pr => ((String.mk kl, Json.str s) :: pr.1, pr.2)) := by
  simp [parseFields, skipWs, isWsChar, parseStringBody_escapeList,
    parseVal_str fuel s (',' :: tail)]

theorem parseFields_step_num_comma (fuel : Nat) (kl : List Char) (i : Int)
    (tail : List Char) :
    parseFields (fuel + 1 + 1)
      ('"' :: (escapeList kl ++ ('"' :: (':' :: (intChars i ++ (',' :: tail))))))
      = (parseFields (fuel + 1) tail).map
          (fun pr => ((String.mk kl, Json.num i) :: pr.1, pr.2)) := by
  simp [parseFields, skipWs, isWsChar, parseStringBody_escapeList,
    parseVal_num fuel i (',' :: tail) rfl]

theorem parseFields_step_str_close (fuel : Nat) (kl : List Char) (s : String)
    (rest : List Char) :
    parseFields (fuel + 1 + 1)
      ('"' :: (escapeList kl ++ ('"' :: (':' ::
        ('"' :: (escapeList s.data ++ ('"' :: ('}' :: rest))))))))
      = .ok ([(String.mk kl, Json.str s)], rest) := by
  simp [parseFields, skipWs, isWsChar, parseStringBody_escapeList,
    parseVal_str fuel s ('}' :: rest)]

theorem parseFields_step_strlist_close (fuel : Nat) (kl vl : List Char)
    (rest : List Char) :
    parseFields (fuel + 1 + 1)
      ('"' :: (escapeList kl ++ ('"' :: (':' ::
        ('"' :: (escapeList vl ++ ('"' :: ('}' :: rest))))))))
      = .ok ([(String.mk kl, Json.str (String.mk vl))], rest) :=
  parseFields_step_str_close fuel kl (String.mk vl) rest

theorem parseVal_encodeMessage (f : Nat) (m : Message) (rest : List Char) :
    parseVal (f + 1 + 1 + 1 + 1 + 1 + 1 + 1) (render (encodeMessage m) ++ rest)
      = .ok (encodeMessage m, rest) := by
  simp only [encodeMessage, render, renderFields, List.cons_append, List.nil_append,
    List.append_assoc]
  rw [parseVal_obj_str_key (f + 1 + 1 + 1 + 1 + 1 + 1)]
  rw [parseFields_step_str_comma (f + 1 + 1 + 1 + 1)]
  rw [parseFields_step_num_comma (f + 1 + 1 + 1)]
  rw [parseFields_step_str_comma (f + 1 + 1)]
  rw [parseFields_step_str_comma (f + 1)]
  rw [parseFields_step_strlist_close f]
  rfl

theorem parse_Marshal (m : Message) : parse (Marshal m) = .ok (encodeMessage m) := by
  unfold Marshal parse
  have hlen : 6 ≤ (render (encodeMessage m)).length := by
    simp only [encodeMessage, render, renderFields]
    simp [List.length_append]
    omega
  have hfuel : (render (encodeMessage m)).length + 1
      = ((render (encodeMessage m)).length - 6) + 1 + 1 + 1 + 1 + 1 + 1 + 1 := by
    omega
  rw [hfuel]
  have h := parseVal_encodeMessage ((render (encodeMessage m)).length - 6) m []
  rw [List.append_nil] at h
  rw [h]
  simp [skipWs]

theorem decodeMessage_encodeMessage (m : Message) :
    decodeMessage (encodeMessage m) = .ok m := by
  simp [decodeMessage, encodeMessage, setField, zeroMessage, List.foldlM,
    parseTimestamp_intChars, Except.bind]
  rfl

/-- C3: decoding the encoding of any well-formed message succeeds and
returns a message equal to the original in sender id, sequence number,
type, payload, and timestamp (exactly, at the codec's nanosecond
timestamp precision, which is the model's granularity). -/
theorem c3_codec_round_trip (m : Message) :
    Unmarshal (Marshal m) = .ok m := by
  unfold Unmarshal
  rw [parse_Marshal m]
  exact decodeMessage_encodeMessage m

theorem broadcastLoop_delivered (env : BCastEnv) (data : List Char)
    (snap : List (String × Nat)) :
    ∀ table del fe, (broadcastLoop env data snap table del fe).2.1
      = del ++ (snap.filter (fun p => env.writeOk p.2)).map (fun p => (p.2, data)) := by
  induction snap with
  | nil => intro table del fe; simp [broadcastLoop]
  | cons q rest ih =>
    intro table del fe
    obtain ⟨id, c⟩ := q
    by_cases h : env.writeOk c
    · simp [broadcastLoop, h, ih]
    · simp [broadcastLoop, h, ih]

theorem broadcastLoop_err (env : BCastEnv) (data : List Char)
    (snap : List (String × Nat)) :
    ∀ table del fe, (broadcastLoop env data snap table del fe).2.2
      = match fe with
        | some e => some e
        | none => (snap.find? (fun p => !env.writeOk p.2)).map
            (fun p => "write to " ++ p.1) := by
  induction snap with
  | nil =>
    intro table del fe
    cases fe <;> simp [broadcastLoop]
  | cons q rest ih =>
    intro table del fe
    obtain ⟨id, c⟩ := q
    by_cases h : env.writeOk c
    · cases fe <;> simp [broadcastLoop, h, ih, List.find?_cons]
    · cases fe <;> simp [broadcastLoop, h, ih, List.find?_cons]

theorem broadcastLoop_table (env : BCastEnv) (data : List Char)
    (snap : List (String × Nat)) :
    ∀ table del fe, (broadcastLoop env data snap table del fe).1
      = ((snap.filter (fun p => !env.writeOk p.2)).map Prod.fst).foldl
          RemoveConn table := by
  induction snap with
  | nil => intro table del fe; simp [broadcastLoop]
  | cons q rest ih =>
    intro table del fe
    obtain ⟨id, c⟩ := q
    by_cases h : env.writeOk c
    · simp [broadcastLoop, h, ih]
    · simp [broadcastLoop, h, ih]

theorem lookup_filter_ne (id j : String) (h : ¬(id = j)) :
    ∀ l : List (String × Nat),
      List.lookup id (l.filter (fun kv => !(kv.1 == j))) = List.lookup id l := by
  intro l
  induction l with
  | nil => rfl
  | cons kv t ih =>
    obtain ⟨k, v⟩ := kv
    by_cases hkj : k = j
    · subst hkj
      have hik : (id == k) = false := beq_eq_false_iff_ne.mpr h
      simp [List.filter_cons, List.lookup, hik, ih]
    · have : ((k, v).1 == j) = false := beq_eq_false_iff_ne.mpr hkj
      by_cases hik : id = k
      · subst hik
        simp [List.filter_cons, this, List.lookup]
      · have hik2 : (id == k) = false := beq_eq_false_iff_ne.mpr hik
        simp [List.filter_cons, this, List.lookup, hik2, ih]

theorem RemoveConn_lookup_other (t : ConnTable) (id j : String) (h : ¬(id = j)) :
    List.lookup id (RemoveConn t j).conns = List.lookup id t.conns := by
  unfold RemoveConn
  cases List.lookup j t.conns with
  | none => rfl
  | some c => exact lookup_filter_ne id j h t.conns

theorem lookup_none_not_mem (l : List (String × Nat)) (j : String)
    (h : List.lookup j l = none) : j ∉ l.map Prod.fst := by
  induction l with
  | nil => simp
  | cons kv t ih =>
    obtain ⟨k, v⟩ := kv
    by_cases hjk : j = k
    · subst hjk
      simp [List.lookup] at h
    · have hb : (j == k) = false := beq_eq_false_iff_ne.mpr hjk
      simp only [List.lookup, hb] at h
      simp only [List.map_cons, List.mem_cons]
      rintro (hc | hc)
      · exact hjk hc
      · exact ih h hc

theorem not_mem_keys_RemoveConn_self (t : ConnTable) (j : String) :
    j ∉ (RemoveConn t j).conns.map Prod.fst := by
  unfold RemoveConn
  cases hl : List.lookup j t.conns with
  | none => exact lookup_none_not_mem t.conns j hl
  | some c =>
    intro hmem
    rcases List.mem_map.mp hmem with ⟨p, hp, hp1⟩
    rcases List.mem_filter.mp hp with ⟨hpl, hpf⟩
    rw [hp1] at hpf
    simp at hpf

theorem keys_RemoveConn_not_mem (t : ConnTable) (j id : String)
    (h : id ∉ t.conns.map Prod.fst) : id ∉ (RemoveConn t j).conns.map Prod.fst := by
  unfold RemoveConn
  cases List.lookup j t.conns with
  | none => exact h
  | some c =>
    intro hmem
    rcases List.mem_map.mp hmem with ⟨p, hp, hp1⟩
    exact h (List.mem_map.mpr ⟨p, (List.mem_filter.mp hp).1, hp1⟩)

theorem foldl_RemoveConn_lookup (ids : List String) :
    ∀ t : ConnTable, ∀ id : String, id ∉ ids →
      List.lookup id ((ids.foldl RemoveConn t).conns) = List.lookup id t.conns := by
  induction ids with
  | nil => intro t id _; rfl
  | cons j rest ih =>
    intro t id hmem
    have hij : ¬(id = j) := fun e => hmem (e ▸ List.mem_cons_self j rest)
    rw [List.foldl_cons, ih (RemoveConn t j) id (fun hm => hmem (List.mem_cons_of_mem j hm)),
      RemoveConn_lookup_other t id j hij]

theorem foldl_RemoveConn_keys_not_mem (ids : List String) :
    ∀ t : ConnTable, ∀ id : String, id ∉ t.conns.map Prod.fst →
      id ∉ ((ids.foldl RemoveConn t).conns.map Prod.fst) := by
  induction ids with
  | nil => intro t id h; exact h
  | cons j rest ih =>
    intro t id h
    exact ih (RemoveConn t j) id (keys_RemoveConn_not_mem t j id h)

theorem mem_ids_not_mem_foldl_keys (ids : List String) :
    ∀ t : ConnTable, ∀ id : String, id ∈ ids →
      id ∉ ((ids.foldl RemoveConn t).conns.map Prod.fst) := by
  induction ids with
  | nil => intro t id h; exact absurd h (List.not_mem_nil id)
  | cons j rest ih =>
    intro t id h
    rw [List.foldl_cons]
    by_cases hij : id = j
    · subst hij
      by_cases hir : id ∈ rest
      · exact ih (RemoveConn t id) id hir
      · exact foldl_RemoveConn_keys_not_mem rest (RemoveConn t id) id
          (not_mem_keys_RemoveConn_self t id)
    · exact ih (RemoveConn t j) id ((List.mem_cons.mp h).resolve_left hij)

theorem RemoveConn_closed_mono (t : ConnTable) (j : String) (c : Nat)
    (h : c ∈ t.closed) : c ∈ (RemoveConn t j).closed := by
  unfold RemoveConn
  cases List.lookup j t.conns with
  | none => exact h
  | some c2 => exact List.mem_append_left _ h

theorem foldl_RemoveConn_closed_mono (ids : List String) :
    ∀ t : ConnTable, ∀ c : Nat, c ∈ t.closed →
      c ∈ (ids.foldl RemoveConn t).closed := by
  induction ids with
  | nil => intro t c h; exact h
  | cons j rest ih =>
    intro t c h
    exact ih (RemoveConn t j) c (RemoveConn_closed_mono t j c h)

theorem closed_mem_foldl (ids : List String) :
    ∀ t : ConnTable, ∀ id : String, ∀ c : Nat, ids.Nodup → id ∈ ids →
      List.lookup id t.conns = some c →
      c ∈ (ids.foldl RemoveConn t).closed := by
  induction ids with
  | nil => intro t id c _ h _; exact absurd h (List.not_mem_nil id)
  | cons j rest ih =>
    intro t id c hnd hmem hl
    rw [List.foldl_cons]
    by_cases hij : id = j
    · subst hij
      have hclosed : c ∈ (RemoveConn t id).closed := by
        unfold RemoveConn
        rw [hl]
        exact List.mem_append_right _ (List.mem_singleton.mpr rfl)
      exact foldl_RemoveConn_closed_mono rest (RemoveConn t id) c hclosed
    · have hir : id ∈ rest := (List.mem_cons.mp hmem).resolve_left hij
      refine ih (RemoveConn t j) id c (List.nodup_cons.mp hnd).2 hir ?_
      rw [RemoveConn_lookup_other t id j hij]
      exact hl

theorem lookup_of_mem_nodup (l : List (String × Nat)) (p : String × Nat)
    (hk : (l.map Prod.fst).Nodup) (hp : p ∈ l) :
    List.lookup p.1 l = some p.2 := by
  induction l with
  | nil => exact absurd hp (List.not_mem_nil p)
  | cons kv t ih =>
    obtain ⟨k, v⟩ := kv
    simp only [List.map_cons, List.nodup_cons] at hk
    rcases List.mem_cons.mp hp with h | h
    · subst h
      simp [List.lookup]
    · have hne : ¬(p.1 = k) := by
        intro e
        exact hk.1 (e ▸ List.mem_map.mpr ⟨p, h, rfl⟩)
      have hb : (p.1 == k) = false := beq_eq_false_iff_ne.mpr hne
      simp only [List.lookup, hb]
      exact ih hk.2 h

theorem count_map_pair (data : List Char) (c : Nat) :
    ∀ L : List (String × Nat),
      (L.map (fun p => (p.2, data))).count (c, data) = (L.map Prod.snd).count c := by
  intro L
  induction L with
  | nil => rfl
  | cons q t ih =>
    simp only [List.map_cons, List.count_cons, ih]
    by_cases h : q.2 = c
    · subst h; simp
    · have h1 : ((q.2, data) == (c, data)) = false :=
        beq_eq_false_iff_ne.mpr (by simp [h])
      have h2 : (q.2 == c) = false := beq_eq_false_iff_ne.mpr h
      simp [h1, h2]

/-- C2: `Broadcast` attempts a write of the encoded bytes to every
connection in the snapshot of the table; every connection whose write
succeeds receives the encoded frame exactly once and stays in the table;
every connection whose write fails is removed from the table and closed
while the fan-out continues; the return value is the first write error
observed, or none when every write succeeded. -/
theorem c2_broadcast_write_isolation (env : BCastEnv) (st : PeerSt) (m : Message)
    (hk : (st.conns.conns.map Prod.fst).Nodup)
    (hv : (st.conns.conns.map Prod.snd).Nodup) :
    (∀ p ∈ st.conns.conns, env.writeOk p.2 = true →
        (Broadcast env st m).2.1.count (p.2, Marshal m) = 1
        ∧ List.lookup p.1 ((Broadcast env st m).1.conns) = some p.2)
    ∧ (∀ p ∈ st.conns.conns, env.writeOk p.2 = false →
        p.1 ∉ ((Broadcast env st m).1.conns.map Prod.fst)
        ∧ p.2 ∈ (Broadcast env st m).1.closed)
    ∧ ((Broadcast env st m).2.2.1 = none ↔
        ∀ p ∈ st.conns.conns, env.writeOk p.2 = true)
    ∧ (Broadcast env st m).2.2.1
        = (st.conns.conns.find? (fun p => !env.writeOk p.2)).map
            (fun p => "write to " ++ p.1) := by
  have hB1 : (Broadcast env st m).2.1
      = (st.conns.conns.filter (fun p => env.writeOk p.2)).map
          (fun p => (p.2, Marshal m)) := by
    simp only [Broadcast]
    rw [broadcastLoop_delivered]
    simp
  have hBt : (Broadcast env st m).1
      = ((st.conns.conns.filter (fun p => !env.writeOk p.2)).map Prod.fst).foldl
          RemoveConn st.conns := by
    simp only [Broadcast]
    rw [broadcastLoop_table]
  have hBe : (Broadcast env st m).2.2.1
      = (st.conns.conns.find? (fun p => !env.writeOk p.2)).map
          (fun p => "write to " ++ p.1) := by
    simp only [Broadcast]
    rw [broadcastLoop_err]
  have hfail_nodup : ((st.conns.conns.filter (fun p => !env.writeOk p.2)).map Prod.fst).Nodup :=
    hk.sublist ((List.filter_sublist st.conns.conns).map Prod.fst)
  refine ⟨?_, ?_, ?_, hBe⟩
  · intro p hp hok
    constructor
    · rw [hB1, count_map_pair]
      have hsub : List.Sublist
          ((st.conns.conns.filter (fun p => env.writeOk p.2)).map Prod.snd)
          (st.conns.conns.map Prod.snd) :=
        (List.filter_sublist st.conns.conns).map Prod.snd
      have hnd2 := hv.sublist hsub
      have hmem2 : p.2 ∈ (st.conns.conns.filter (fun p => env.writeOk p.2)).map Prod.snd :=
        List.mem_map.mpr ⟨p, List.mem_filter.mpr ⟨hp, by simp [hok]⟩, rfl⟩
      exact List.count_eq_one_of_mem hnd2 hmem2
    · rw [hBt]
      rw [foldl_RemoveConn_lookup _ st.conns p.1 ?_]
      · exact lookup_of_mem_nodup st.conns.conns p hk hp
      · intro hmem
        rcases List.mem_map.mp hmem with ⟨q, hqf, hq1⟩
        rcases List.mem_filter.mp hqf with ⟨hql, hqp⟩
        have hlq := lookup_of_mem_nodup st.conns.conns q hk hql
        have hlp := lookup_of_mem_nodup st.conns.conns p hk hp
        rw [hq1] at hlq
        rw [hlp] at hlq
        have h2 : p.2 = q.2 := by injection hlq
        rw [← h2] at hqp
        simp [hok] at hqp
  · intro p hp hfl
    have hmemid : p.1 ∈ (st.conns.conns.filter (fun p => !env.writeOk p.2)).map Prod.fst :=
      List.mem_map.mpr ⟨p, List.mem_filter.mpr ⟨hp, by simp [hfl]⟩, rfl⟩
    constructor
    · rw [hBt]
      exact mem_ids_not_mem_foldl_keys _ st.conns p.1 hmemid
    · rw [hBt]
      exact closed_mem_foldl _ st.conns p.1 p.2 hfail_nodup hmemid
        (lookup_of_mem_nodup st.conns.conns p hk hp)
  · rw [hBe]
    constructor
    · intro hnone p hp
      rcases hfind : st.conns.conns.find? (fun p => !env.writeOk p.2) with _ | q
      · have := List.find?_eq_none.mp hfind p hp
        simpa using this
      · rw [hfind] at hnone
        simp at hnone
    · intro hall
      rw [List.find?_eq_none.mpr ?_]
      · rfl
      · intro x hx
        simp [hall x hx]

theorem c2_broadcast_write_isolation_witness :
    (((PeerSt.mk (ConnTable.mk [("good", 1), ("bad", 2)] []) (New 100)).conns.conns.map Prod.fst).Nodup
      ∧ ((PeerSt.mk (ConnTable.mk [("good", 1), ("bad", 2)] []) (New 100)).conns.conns.map Prod.snd).Nodup)
    ∧ (
    (∀ p ∈ (PeerSt.mk (ConnTable.mk [("good", 1), ("bad", 2)] []) (New 100)).conns.conns, (BCastEnv.mk (fun c => c == 1)).writeOk p.2 = true →
        (Broadcast (BCastEnv.mk (fun c => c == 1)) (PeerSt.mk (ConnTable.mk [("good", 1), ("bad", 2)] []) (New 100)) (Message.mk "s" 1 "chat" "hi" 0)).2.1.count (p.2, Marshal (Message.mk "s" 1 "chat" "hi" 0)) = 1
        ∧ List.lookup p.1 ((Broadcast (BCastEnv.mk (fun c => c == 1)) (PeerSt.mk (ConnTable.mk [("good", 1), ("bad", 2)] []) (New 100)) (Message.mk "s" 1 "chat" "hi" 0)).1.conns) = some p.2)
    ∧ (∀ p ∈ (PeerSt.mk (ConnTable.mk [("good", 1), ("bad", 2)] []) (New 100)).conns.conns, (BCastEnv.mk (fun c => c == 1)).writeOk p.2 = false →
        p.1 ∉ ((Broadcast (BCastEnv.mk (fun c => c == 1)) (PeerSt.mk (ConnTable.mk [("good", 1), ("bad", 2)] []) (New 100)) (Message.mk "s" 1 "chat" "hi" 0)).1.conns.map Prod.fst)
        ∧ p.2 ∈ (Broadcast (BCastEnv.mk (fun c => c == 1)) (PeerSt.mk (ConnTable.mk [("good", 1), ("bad", 2)] []) (New 100)) (Message.mk "s" 1 "chat" "hi" 0)).1.closed)
    ∧ ((Broadcast (BCastEnv.mk (fun c => c == 1)) (PeerSt.mk (ConnTable.mk [("good", 1), ("bad", 2)] []) (New 100)) (Message.mk "s" 1 "chat" "hi" 0)).2.2.1 = none ↔
        ∀ p ∈ (PeerSt.mk (ConnTable.mk [("good", 1), ("bad", 2)] []) (New 100)).conns.conns, (BCastEnv.mk (fun c => c == 1)).writeOk p.2 = true)
    ∧ (Broadcast (BCastEnv.mk (fun c => c == 1)) (PeerSt.mk (ConnTable.mk [("good", 1), ("bad", 2)] []) (New 100)) (Message.mk "s" 1 "chat" "hi" 0)).2.2.1
        = ((PeerSt.mk (ConnTable.mk [("good", 1), ("bad", 2)] []) (New 100)).conns.conns.find? (fun p => !(BCastEnv.mk (fun c => c == 1)).writeOk p.2)).map
            (fun p => "write to " ++ p.1)) :=
  ⟨⟨by decide, by decide⟩,
    c2_broadcast_write_isolation (BCastEnv.mk (fun c => c == 1)) (PeerSt.mk (ConnTable.mk [("good", 1), ("bad", 2)] []) (New 100)) (Message.mk "s" 1 "chat" "hi" 0) (by decide) (by decide)⟩

end P2p
